import Mathlib

/-
Verification of the transliteration core of tamil_diacritic_app.py:
codepoint classification tables, the script-to-romanization composer
(tamil_to_diacritic_roman), the ordered pattern-substitution engine
(replace_preserve_case / apply_roman_mappings) and the user-override pass
(apply_custom_mappings).  Strings are embedded as List Char; Python's
str.replace, str.capitalize, str.upper and str.isalpha are modelled on the
alphabet the application manipulates (ASCII letters plus the diacritic
letters occurring in its tables).
-/

namespace TamilApp

/-- Lower/upper pairs for every letter the app's tables can produce:
ASCII a..z plus the diacritic letters of the transliteration tables.
Models Python's case mapping restricted to this alphabet. -/
def caseTable : List (Char × Char) :=
  [('a','A'),('b','B'),('c','C'),('d','D'),('e','E'),('f','F'),('g','G'),
   ('h','H'),('i','I'),('j','J'),('k','K'),('l','L'),('m','M'),('n','N'),
   ('o','O'),('p','P'),('q','Q'),('r','R'),('s','S'),('t','T'),('u','U'),
   ('v','V'),('w','W'),('x','X'),('y','Y'),('z','Z'),
   ('ā','Ā'),('ī','Ī'),('ū','Ū'),('ē','Ē'),('ō','Ō'),
   ('ṅ','Ṅ'),('ñ','Ñ'),('ṭ','Ṭ'),('ṇ','Ṇ'),('ṉ','Ṉ'),('ṟ','Ṟ'),
   ('ḷ','Ḷ'),('ḻ','Ḻ'),('ś','Ś'),('ṣ','Ṣ'),('ṛ','Ṛ'),('ṃ','Ṃ'),('ḥ','Ḥ')]

/-- Reverse of caseTable, for lower-casing. -/
def swapTable : List (Char × Char) := caseTable.map (fun p => (p.2, p.1))

/-- Python ch.upper() for one character, on the modelled alphabet. -/
def toUpperCh (c : Char) : Char := (List.lookup c caseTable).getD c

/-- Python ch.lower() for one character, on the modelled alphabet. -/
def toLowerCh (c : Char) : Char := (List.lookup c swapTable).getD c

/-- Python ch.isalpha() on the modelled alphabet. -/
def isAlphaCh (c : Char) : Bool :=
  (List.lookup c caseTable).isSome || (List.lookup c swapTable).isSome

/-- Python s.upper(): upper-case every character. -/
def strUpper (s : List Char) : List Char := s.map toUpperCh

/-- Python s.capitalize(): first character upper-cased, the rest lower-cased. -/
def pyCapitalize : List Char → List Char
  | [] => []
  | c :: rest => toUpperCh c :: rest.map toLowerCh

/-- The expression on line 61 of the source: upper-case the alphabetic
characters of tgt, leave the others unchanged. -/
def mapUpperAlpha (s : List Char) : List Char :=
  s.map (fun ch => if isAlphaCh ch then toUpperCh ch else ch)

/-- Python s.replace("", new): new is inserted before every character of s
and once at the end. -/
def pyInterleave (new : List Char) : List Char → List Char
  | [] => new
  | c :: rest => new ++ c :: pyInterleave new rest

/-- Scanner for Python s.replace(old, new) with old nonempty: at skip count
k+1 the current character belongs to an already matched occurrence and is
consumed silently; at skip count 0 a fresh leftmost match of old emits new
and schedules the remaining old.length - 1 matched characters for skipping,
otherwise the character is copied. -/
def pyReplaceGo (old new : List Char) : List Char → Nat → List Char
  | [], _ => []
  | _ :: rest, Nat.succ k => pyReplaceGo old new rest k
  | c :: rest, 0 =>
    if old.isPrefixOf (c :: rest) then
      new ++ pyReplaceGo old new rest (old.length - 1)
    else
      c :: pyReplaceGo old new rest 0

/-- Python s.replace(old, new): global, leftmost, non-overlapping. -/
def pyReplace (s old new : List Char) : List Char :=
  if old = [] then pyInterleave new s else pyReplaceGo old new s 0

/-- Python `p in s` substring test. -/
def occursIn (p : List Char) : List Char → Bool
  | [] => p.isEmpty
  | c :: rest => p.isPrefixOf (c :: rest) || occursIn p rest

/-- replace_preserve_case from the source (lines 56-62): exact replace,
then, only when src is nonempty and its first character is alphabetic,
a Title-form replace and an all-caps replace. -/
def replace_preserve_case (s src tgt : List Char) : List Char :=
  let out := pyReplace s src tgt
  match src with
  | [] => out
  | c :: _ =>
    if isAlphaCh c then
      let out2 := pyReplace out (pyCapitalize src) (pyCapitalize tgt)
      pyReplace out2 (strUpper src) (mapUpperAlpha tgt)
    else out

/-- ROMAN_MAPPINGS from the source (lines 49-53). -/
def ROMAN_MAPPINGS : List (List Char × List Char) :=
  [(['a','a'],['ā']),(['i','i'],['ī']),(['u','u'],['ū']),
   (['e','e'],['ē']),(['o','o'],['ō']),
   (['z','h'],['ḻ']),(['n','g'],['ṅ']),(['n','.'],['ṇ']),
   (['t','.'],['ṭ']),(['l','.'],['ḷ']),
   (['r','.'],['ṛ']),(['m','.'],['ṃ']),(['s','h'],['ś']),
   (['c','h'],['c','h'])]

/-- Stable insertion of a rule into a list already ordered by descending
pattern length: the rule passes every strictly longer pattern and stops in
front of the first pattern of equal or smaller length. -/
def insertRule (r : List Char × List Char) :
    List (List Char × List Char) → List (List Char × List Char)
  | [] => [r]
  | x :: xs =>
    if r.1.length < x.1.length then x :: insertRule r xs else r :: x :: xs

/-- Python sorted(rules, key=len of pattern, descending): a stable sort by
descending pattern length, as performed by apply_roman_mappings (line 66)
and apply_custom_mappings (line 111). -/
def sortRules :
    List (List Char × List Char) → List (List Char × List Char)
  | [] => []
  | r :: rest => insertRule r (sortRules rest)

/-- The pattern-substitution engine: rules sorted by descending pattern
length, each applied case-aware over the accumulated string (source
lines 64-68, generalized over the rule list exactly as written there). -/
def substitute (text : List Char) (rules : List (List Char × List Char)) :
    List Char :=
  (sortRules rules).foldl (fun out r => replace_preserve_case out r.1 r.2) text

/-- apply_roman_mappings from the source (lines 64-68). -/
def apply_roman_mappings (text : List Char) : List Char :=
  substitute text ROMAN_MAPPINGS

/-- apply_custom_mappings from the source (lines 109-113): same descending
length sort, but a plain out.replace(s, t) per rule. -/
def apply_custom_mappings (text : List Char)
    (rules : List (List Char × List Char)) : List Char :=
  (sortRules rules).foldl (fun out r => pyReplace out r.1 r.2) text

/-- TAMIL_INDEPENDENT_VOWELS from the source (lines 26-30). -/
def TAMIL_INDEPENDENT_VOWELS : List (Char × List Char) :=
  [('அ',['a']),('ஆ',['ā']),('இ',['i']),('ஈ',['ī']),
   ('உ',['u']),('ஊ',['ū']),('எ',['e']),('ஏ',['ē']),
   ('ஐ',['a','i']),('ஒ',['o']),('ஓ',['ō']),('ஔ',['a','u'])]

/-- TAMIL_VOWEL_SIGNS from the source (lines 31-34). -/
def TAMIL_VOWEL_SIGNS : List (Char × List Char) :=
  [('ா',['ā']),('ி',['i']),('ீ',['ī']),('ு',['u']),('ூ',['ū']),
   ('ெ',['e']),('ே',['ē']),('ை',['a','i']),('ொ',['o']),('ோ',['ō']),
   ('ௌ',['a','u'])]

/-- TAMIL_VIRAMA from the source (line 35). -/
def TAMIL_VIRAMA : Char := '்'

/-- TAMIL_ANUSVARA from the source (line 36). -/
def TAMIL_ANUSVARA : Char := 'ஂ'

/-- TAMIL_AAYTHAM from the source (line 37). -/
def TAMIL_AAYTHAM : Char := 'ஃ'

/-- PUNCT_MAP from the source (line 38). -/
def PUNCT_MAP : List (Char × List Char) :=
  [('।',['.']),('॥',['.']),('\u200C',[]),('\u200D',[])]

/-- TAMIL_CONSONANTS_CORE from the source (lines 41-46). -/
def TAMIL_CONSONANTS_CORE : List (Char × List Char) :=
  [('க',['k']),('ங',['ṅ']),('ச',['c']),('ஞ',['ñ']),('ட',['ṭ']),
   ('ண',['ṇ']),('த',['t']),('ந',['n']),('ன',['ṉ']),('ப',['p']),
   ('ம',['m']),('ய',['y']),('ர',['r']),('ற',['ṟ']),('ல',['l']),
   ('ள',['ḷ']),('ழ',['ḻ']),('வ',['v'])]

/-- build_consonant_map from the source (lines 70-77): the core table plus
five Grantha entries whose values depend on the use_sanskrit flag. -/
def build_consonant_map (use_sanskrit : Bool) : List (Char × List Char) :=
  TAMIL_CONSONANTS_CORE ++
    (if use_sanskrit then
      [('ஜ',['j']),('ஷ',['ṣ']),('ஸ',['s']),('ஹ',['h']),('ஶ',['ś'])]
     else
      [('ஜ',['j']),('ஷ',['s','h']),('ஸ',['s']),('ஹ',['h']),('ஶ',['s'])])

/-- The scanning loop of tamil_to_diacritic_roman (source lines 84-107):
punctuation, anusvara, aytham and independent vowels advance by one;
a consonant looks one codepoint ahead for a virama or a vowel sign
(advance two) and otherwise takes the inherent vowel 'a' (advance one);
everything else is copied unchanged. -/
def composeLoop (cmap : List (Char × List Char)) : List Char → List Char
  | [] => []
  | [c] =>
    match List.lookup c PUNCT_MAP with
    | some rep => rep
    | none =>
      if c = TAMIL_ANUSVARA then ['ṃ']
      else if c = TAMIL_AAYTHAM then ['ḥ']
      else
        match List.lookup c TAMIL_INDEPENDENT_VOWELS with
        | some rep => rep
        | none =>
          match List.lookup c cmap with
          | some base => base ++ ['a']
          | none => [c]
  | c :: nxt :: rest2 =>
    match List.lookup c PUNCT_MAP with
    | some rep => rep ++ composeLoop cmap (nxt :: rest2)
    | none =>
      if c = TAMIL_ANUSVARA then 'ṃ' :: composeLoop cmap (nxt :: rest2)
      else if c = TAMIL_AAYTHAM then 'ḥ' :: composeLoop cmap (nxt :: rest2)
      else
        match List.lookup c TAMIL_INDEPENDENT_VOWELS with
        | some rep => rep ++ composeLoop cmap (nxt :: rest2)
        | none =>
          match List.lookup c cmap with
          | some base =>
            if nxt = TAMIL_VIRAMA then base ++ composeLoop cmap rest2
            else
              match List.lookup nxt TAMIL_VOWEL_SIGNS with
              | some v => (base ++ v) ++ composeLoop cmap rest2
              | none => (base ++ ['a']) ++ composeLoop cmap (nxt :: rest2)
          | none => c :: composeLoop cmap (nxt :: rest2)

/-- tamil_to_diacritic_roman from the source (lines 82-107): build the
mode's consonant map, then scan. -/
def tamil_to_diacritic_roman (text : List Char) (use_sanskrit : Bool) :
    List Char :=
  composeLoop (build_consonant_map use_sanskrit) text

/-- The two source modes offered by the interface (convert_now,
lines 218-221). -/
inductive InputMode
  | Tamil
  | Roman

/-- The conversion pipeline of convert_now (source lines 212-223), without
the interface glue: mode-selected first pass, then the user rules when the
rule list is nonempty. -/
def convert (text : List Char) (mode : InputMode) (use_sanskrit : Bool)
    (rules : List (List Char × List Char)) : List Char :=
  let converted :=
    match mode with
    | InputMode.Roman => apply_roman_mappings text
    | InputMode.Tamil => tamil_to_diacritic_roman text use_sanskrit
  match rules with
  | [] => converted
  | _ :: _ => apply_custom_mappings converted rules

lemma isPrefixOf_append_self : ∀ (p t : List Char), p.isPrefixOf (p ++ t) = true
  | [], t => by simp [List.isPrefixOf]
  | c :: p', t => by simp [List.isPrefixOf, isPrefixOf_append_self p' t]

lemma pyReplaceGo_skip (old new : List Char) :
    ∀ (u t : List Char),
      pyReplaceGo old new (u ++ t) u.length = pyReplaceGo old new t 0
  | [], _ => rfl
  | c :: u', t => by
    simpa [pyReplaceGo] using pyReplaceGo_skip old new u' t

lemma pyReplace_append_self (p t rp : List Char) (hp : p ≠ []) :
    pyReplace (p ++ t) p rp = rp ++ pyReplace t p rp := by
  obtain ⟨c, p', rfl⟩ : ∃ c p', p = c :: p' := by
    cases p with
    | nil => exact absurd rfl hp
    | cons c p' => exact ⟨c, p', rfl⟩
  simp only [pyReplace, if_neg hp, List.cons_append]
  have hpre : (c :: p').isPrefixOf (c :: (p' ++ t)) = true :=
    isPrefixOf_append_self (c :: p') t
  simp only [pyReplaceGo, hpre, if_true]
  have hlen : (c :: p').length - 1 = p'.length := by simp
  rw [hlen, pyReplaceGo_skip]

lemma pyReplace_of_not_occurs (p r : List Char) (hp : p ≠ []) :
    ∀ s, occursIn p s = false → pyReplace s p r = s := by
  intro s hs
  simp only [pyReplace, if_neg hp]
  induction s with
  | nil => rfl
  | cons c rest ih =>
    simp only [occursIn, Bool.or_eq_false_iff] at hs
    simp only [pyReplaceGo, hs.1, Bool.false_eq_true, if_false]
    exact congrArg (c :: ·) (ih hs.2)

lemma mem_insertRule {x a : List Char × List Char} :
    ∀ {L : List (List Char × List Char)},
      x ∈ insertRule a L ↔ x = a ∨ x ∈ L := by
  intro L
  induction L with
  | nil => simp [insertRule]
  | cons y ys ih =>
    simp only [insertRule]
    split
    · simp only [List.mem_cons, ih]
      tauto
    · simp only [List.mem_cons]

lemma sorted_insertRule {a : List Char × List Char}
    {L : List (List Char × List Char)}
    (h : List.Sorted (fun x y => y.1.length ≤ x.1.length) L) :
    List.Sorted (fun x y => y.1.length ≤ x.1.length) (insertRule a L) := by
  induction L with
  | nil => simp [insertRule]
  | cons y ys ih =>
    rw [List.sorted_cons] at h
    simp only [insertRule]
    split
    · rename_i hlt
      rw [List.sorted_cons]
      refine ⟨fun b hb => ?_, ih h.2⟩
      rcases mem_insertRule.mp hb with rfl | hb
      · omega
      · exact h.1 b hb
    · rename_i hge
      rw [List.sorted_cons]
      refine ⟨fun b hb => ?_, List.sorted_cons.mpr h⟩
      rcases List.mem_cons.mp hb with rfl | hb
      · omega
      · have := h.1 b hb
        omega

lemma sorted_sortRules (l : List (List Char × List Char)) :
    List.Sorted (fun x y => y.1.length ≤ x.1.length) (sortRules l) := by
  induction l with
  | nil => simp [sortRules]
  | cons a rest ih => exact sorted_insertRule ih

lemma filter_insertRule (a : List Char × List Char)
    (L : List (List Char × List Char)) (n : Nat) :
    (insertRule a L).filter (fun x => x.1.length == n) =
      if a.1.length = n then a :: L.filter (fun x => x.1.length == n)
      else L.filter (fun x => x.1.length == n) := by
  induction L with
  | nil =>
    by_cases h : a.1.length = n
    · have hbeq : (a.1.length == n) = true := by simpa using h
      simp [insertRule, List.filter_cons, hbeq, h]
    · have hbeq : (a.1.length == n) = false := by simpa using h
      simp [insertRule, List.filter_cons, hbeq, h]
  | cons y ys ih =>
    simp only [insertRule]
    split
    · rename_i hlt
      by_cases ha : a.1.length = n
      · have hy : (y.1.length == n) = false := by
          simp only [beq_eq_false_iff_ne, ne_eq]
          omega
        simp [List.filter_cons, hy, ih, ha]
      · by_cases hy : y.1.length = n <;>
          simp [List.filter_cons, hy, ih, ha]
    · by_cases ha : a.1.length = n <;>
        simp [List.filter_cons, ha]

lemma filter_sortRules (l : List (List Char × List Char)) (n : Nat) :
    (sortRules l).filter (fun x => x.1.length == n) =
      l.filter (fun x => x.1.length == n) := by
  induction l with
  | nil => rfl
  | cons a rest ih =>
    simp only [sortRules, filter_insertRule, ih]
    by_cases ha : a.1.length = n <;> simp [List.filter_cons, ha]

lemma perm_insertRule (a : List Char × List Char) :
    ∀ (L : List (List Char × List Char)), List.Perm (insertRule a L) (a :: L)
  | [] => List.Perm.refl _
  | y :: ys => by
    simp only [insertRule]
    split
    · exact ((perm_insertRule a ys).cons y).trans (List.Perm.swap a y ys)
    · exact List.Perm.refl _

lemma perm_sortRules (l : List (List Char × List Char)) :
    List.Perm (sortRules l) l := by
  induction l with
  | nil => exact List.Perm.refl _
  | cons a rest ih =>
    exact (perm_insertRule a (sortRules rest)).trans (ih.cons a)

lemma mem_keys_of_lookup_isSome {β : Type} {L : List (Char × β)} {a : Char}
    (h : (List.lookup a L).isSome = true) : a ∈ L.map Prod.fst := by
  induction L with
  | nil => simp [List.lookup] at h
  | cons kv rest ih =>
    obtain ⟨k, v⟩ := kv
    by_cases hk : a = k
    · simp [hk]
    · have hbeq : (a == k) = false := by simp [hk]
      simp only [List.lookup, hbeq] at h
      simp [ih h]

lemma composeLoop_other (cmap : List (Char × List Char)) (c : Char)
    (rest : List Char)
    (h1 : List.lookup c PUNCT_MAP = none) (h2 : c ≠ TAMIL_ANUSVARA)
    (h3 : c ≠ TAMIL_AAYTHAM)
    (h4 : List.lookup c TAMIL_INDEPENDENT_VOWELS = none)
    (h5 : List.lookup c cmap = none) :
    composeLoop cmap (c :: rest) = c :: composeLoop cmap rest := by
  cases rest with
  | nil => simp [composeLoop, h1, h2, h3, h4, h5]
  | cons nxt rest2 => simp [composeLoop, h1, h2, h3, h4, h5]

lemma foldl_pyReplace_nil (L : List (List Char × List Char))
    (h : ∀ r ∈ L, r.1 ≠ []) :
    L.foldl (fun out r => pyReplace out r.1 r.2) [] = [] := by
  induction L with
  | nil => rfl
  | cons r rest ih =>
    have hr : r.1 ≠ [] := h r (List.mem_cons_self r rest)
    have : pyReplace [] r.1 r.2 = [] := by
      simp only [pyReplace, if_neg hr]
      cases hx : r.1 with
      | nil => exact absurd hx hr
      | cons a as => rfl
    simp only [List.foldl_cons, this]
    exact ih fun x hx => h x (List.mem_cons_of_mem r hx)

lemma pyInterleave_eq_flatten (t : List Char) :
    ∀ s : List Char,
      pyInterleave t s = (s.map (fun c => t ++ [c])).flatten ++ t
  | [] => by simp [pyInterleave]
  | c :: rest => by
    simp [pyInterleave, pyInterleave_eq_flatten t rest]

lemma pyInterleave_length (t : List Char) :
    ∀ s : List Char,
      (pyInterleave t s).length = s.length + (s.length + 1) * t.length
  | [] => by simp [pyInterleave]
  | c :: rest => by
    simp only [pyInterleave, List.length_append, List.length_cons,
      pyInterleave_length t rest, List.length_cons]
    ring

/-- C1: for every consonant whose base romanization is B in the mode's
consonant map, composing the bare consonant yields B ++ "a", the consonant
followed by the virama yields B alone, and the consonant followed by any
vowel sign of the table with romanization V yields B ++ V, in both modes. -/
theorem C1_consonant_composition :
    ∀ m : Bool, ∀ pr ∈ build_consonant_map m,
      tamil_to_diacritic_roman [pr.1] m = pr.2 ++ ['a']
      ∧ tamil_to_diacritic_roman [pr.1, TAMIL_VIRAMA] m = pr.2
      ∧ ∀ vs ∈ TAMIL_VOWEL_SIGNS,
          tamil_to_diacritic_roman [pr.1, vs.1] m = pr.2 ++ vs.2 := by
  decide

/-- Witness for C1 at the consonant க with base romanization k. -/
theorem C1_consonant_composition_witness :
    tamil_to_diacritic_roman ['க'] true = ['k'] ++ ['a'] :=
  (C1_consonant_composition true ('க', ['k']) (by decide)).1

/-- C5 counterexample: the entries on which the standard and extended
consonant maps disagree are exactly ஷ and ஶ — a subset of size 2, not of
size 4 or 5 — and ஜ, one of the five mode-branch entries, composes
identically in both modes. -/
theorem C5_counterexample :
    (((build_consonant_map true).filter
        (fun pr =>
          !(List.lookup pr.1 (build_consonant_map false) == some pr.2))).map
      Prod.fst) = ['ஷ', 'ஶ']
    ∧ ¬ (4 ≤ (((build_consonant_map true).filter
        (fun pr =>
          !(List.lookup pr.1 (build_consonant_map false) == some pr.2))).map
      Prod.fst).length)
    ∧ tamil_to_diacritic_roman ['ஜ'] true =
        tamil_to_diacritic_roman ['ஜ'] false := by
  decide

/-- C5 amended: the two consonant maps share their key set and differ in
value on exactly the two entries ஷ and ஶ; composing either of those two
differs between the modes, and composing any other consonant of the map is
mode-invariant. -/
theorem C5_mode_subset_exactly_two :
    (((build_consonant_map true).filter
        (fun pr =>
          !(List.lookup pr.1 (build_consonant_map false) == some pr.2))).map
      Prod.fst) = ['ஷ', 'ஶ']
    ∧ tamil_to_diacritic_roman ['ஷ'] true ≠
        tamil_to_diacritic_roman ['ஷ'] false
    ∧ tamil_to_diacritic_roman ['ஶ'] true ≠
        tamil_to_diacritic_roman ['ஶ'] false
    ∧ (build_consonant_map true).map Prod.fst =
        (build_consonant_map false).map Prod.fst
    ∧ ∀ pr ∈ build_consonant_map true, pr.1 ≠ 'ஷ' → pr.1 ≠ 'ஶ' →
        tamil_to_diacritic_roman [pr.1] true =
          tamil_to_diacritic_roman [pr.1] false := by
  decide

/-- Witness for the amended C5 at the mode-invariant consonant க. -/
theorem C5_mode_subset_witness :
    tamil_to_diacritic_roman ['க'] true = tamil_to_diacritic_roman ['க'] false :=
  C5_mode_subset_exactly_two.2.2.2.2 ('க', ['k']) (by decide) (by decide)
    (by decide)

/-- C7: on text whose characters all fall outside the classified ranges
(no punctuation-map entry, not the anusvara, aytham, an independent vowel,
a consonant of the mode's map, a vowel sign or the virama), the composer is
the identity. -/
theorem C7_identity_on_unclassified (text : List Char) (m : Bool)
    (h : ∀ c ∈ text,
      List.lookup c PUNCT_MAP = none ∧ c ≠ TAMIL_ANUSVARA ∧
      c ≠ TAMIL_AAYTHAM ∧ List.lookup c TAMIL_INDEPENDENT_VOWELS = none ∧
      List.lookup c (build_consonant_map m) = none ∧
      List.lookup c TAMIL_VOWEL_SIGNS = none ∧ c ≠ TAMIL_VIRAMA) :
    tamil_to_diacritic_roman text m = text := by
  induction text with
  | nil => rfl
  | cons c rest ih =>
    obtain ⟨h1, h2, h3, h4, h5, -, -⟩ := h c (List.mem_cons_self c rest)
    unfold tamil_to_diacritic_roman at ih ⊢
    rw [composeLoop_other _ c rest h1 h2 h3 h4 h5]
    exact congrArg (c :: ·) (ih fun x hx => h x (List.mem_cons_of_mem c hx))

/-- Witness for C7 on whitespace, a Latin letter, a digit and a symbol. -/
theorem C7_identity_witness :
    tamil_to_diacritic_roman [' ', 'X', '1', '!'] true = [' ', 'X', '1', '!'] :=
  C7_identity_on_unclassified [' ', 'X', '1', '!'] true (by decide)

/-- C8: a virama or vowel-sign codepoint reached by the scan itself — that
is, not consumed by a preceding consonant — is emitted literally and the
scan advances by one, in either mode. -/
theorem C8_orphan_passthrough (c : Char) (m : Bool) (rest : List Char)
    (hc : c = TAMIL_VIRAMA ∨ (List.lookup c TAMIL_VOWEL_SIGNS).isSome = true) :
    tamil_to_diacritic_roman (c :: rest) m =
      c :: tamil_to_diacritic_roman rest m := by
  have hmem : c ∈ TAMIL_VIRAMA :: TAMIL_VOWEL_SIGNS.map Prod.fst := by
    rcases hc with rfl | hc
    · exact List.mem_cons_self _ _
    · exact List.mem_cons_of_mem _ (mem_keys_of_lookup_isSome hc)
  have hall : ∀ x ∈ TAMIL_VIRAMA :: TAMIL_VOWEL_SIGNS.map Prod.fst,
      List.lookup x PUNCT_MAP = none ∧ x ≠ TAMIL_ANUSVARA ∧
      x ≠ TAMIL_AAYTHAM ∧ List.lookup x TAMIL_INDEPENDENT_VOWELS = none ∧
      List.lookup x (build_consonant_map true) = none ∧
      List.lookup x (build_consonant_map false) = none := by decide
  obtain ⟨h1, h2, h3, h4, h5t, h5f⟩ := hall c hmem
  unfold tamil_to_diacritic_roman
  cases m
  · exact composeLoop_other _ c rest h1 h2 h3 h4 h5f
  · exact composeLoop_other _ c rest h1 h2 h3 h4 h5t

/-- Witness for C8: an orphaned virama in front of a consonant. -/
theorem C8_orphan_witness :
    tamil_to_diacritic_roman (TAMIL_VIRAMA :: ['க']) true =
      TAMIL_VIRAMA :: tamil_to_diacritic_roman ['க'] true :=
  C8_orphan_passthrough TAMIL_VIRAMA true ['க'] (Or.inl rfl)

/-- C2 counterexample: on "Aaram" with the user rule ("aa", "ā") the
user-override pass returns the text unchanged, while the case-aware
Pattern Substitution Engine returns "Āram" — the two passes are not the
same engine. -/
theorem C2_counterexample :
    apply_custom_mappings ['A','a','r','a','m'] [(['a','a'], ['ā'])] =
      ['A','a','r','a','m']
    ∧ substitute ['A','a','r','a','m'] [(['a','a'], ['ā'])] = ['Ā','r','a','m']
    ∧ (['A','a','r','a','m'] : List Char) ≠ ['Ā','r','a','m'] := by
  decide

/-- C2 amended: the user-override pass orders its rules like the engine —
by descending pattern length, stably — but applies each rule with a plain
case-sensitive replace: a string without an exact occurrence of the pattern
is left unchanged (even when Title-form or upper-cased occurrences are
present), and an exact occurrence is replaced where it matches. -/
theorem C2_plain_exact_replace (p r u s : List Char)
    (rules : List (List Char × List Char))
    (hp : p ≠ []) (hno : occursIn p s = false) :
    apply_custom_mappings s [(p, r)] = s
    ∧ apply_custom_mappings (p ++ u) [(p, r)] = r ++ pyReplace u p r
    ∧ (∀ n, (sortRules rules).filter (fun x => x.1.length == n) =
        rules.filter (fun x => x.1.length == n))
    ∧ List.Sorted (fun a b => b.1.length ≤ a.1.length) (sortRules rules) := by
  refine ⟨?_, ?_, fun n => filter_sortRules rules n, sorted_sortRules rules⟩
  · simp only [apply_custom_mappings, sortRules, insertRule, List.foldl_cons,
      List.foldl_nil]
    exact pyReplace_of_not_occurs p r hp s hno
  · simp only [apply_custom_mappings, sortRules, insertRule, List.foldl_cons,
      List.foldl_nil]
    exact pyReplace_append_self p u r hp

/-- Witness for the amended C2: "Aaram" is unchanged by the user rule
("aa", "ā") because it contains no exact occurrence of "aa". -/
theorem C2_plain_exact_replace_witness :
    apply_custom_mappings ['A','a','r','a','m'] [(['a','a'], ['ā'])] =
      ['A','a','r','a','m'] :=
  (C2_plain_exact_replace ['a','a'] ['ā'] [] ['A','a','r','a','m'] []
    (by decide) (by decide)).1

/-- C3: the engine's rule order is sorted by descending pattern length and
is stable (the rules of each pattern length keep their original relative
order, and the sorted list is a permutation of the original); on a two-rule
set whose shorter pattern is a proper prefix of the longer one the longer
rule is applied first regardless of declaration order, and the underlying
replace consumes the longer pattern where it matches, placing its
replacement there, so the shorter pattern cannot pre-empt that position. -/
theorem C3_longest_first (rules : List (List Char × List Char))
    (p q rp rq t s : List Char)
    (hlen : q.length < p.length) (hpre : q.isPrefixOf p = true) :
    List.Sorted (fun a b => b.1.length ≤ a.1.length) (sortRules rules)
    ∧ (∀ n, (sortRules rules).filter (fun x => x.1.length == n) =
        rules.filter (fun x => x.1.length == n))
    ∧ List.Perm (sortRules rules) rules
    ∧ substitute s [(q, rq), (p, rp)] =
        replace_preserve_case (replace_preserve_case s p rp) q rq
    ∧ pyReplace (p ++ t) p rp = rp ++ pyReplace t p rp := by
  refine ⟨sorted_sortRules rules, fun n => filter_sortRules rules n,
    perm_sortRules rules, ?_, ?_⟩
  · simp [substitute, sortRules, insertRule, hlen]
  · refine pyReplace_append_self p t rp ?_
    intro h
    subst h
    simp at hlen

/-- Witness for C3: with patterns "a" and "aa", the "aa" rule fires first
even though it is declared second. -/
theorem C3_longest_first_witness :
    substitute ['a','a'] [(['a'], ['x']), (['a','a'], ['y'])] =
      replace_preserve_case
        (replace_preserve_case ['a','a'] ['a','a'] ['y']) ['a'] ['x'] :=
  (C3_longest_first [(['a'], ['x']), (['a','a'], ['y'])] ['a','a'] ['a']
    ['y'] ['x'] [] ['a','a'] (by decide) (by decide)).2.2.2.1

/-- C4 counterexample: for the pattern ".a", whose first character is not
alphabetic, the string ".A" — exactly the pattern fully upper-cased — is
left unchanged by replace_preserve_case, although the claimed all-caps pass
would have produced "X". -/
theorem C4_counterexample :
    replace_preserve_case ['.','A'] ['.','a'] ['x'] = ['.','A']
    ∧ strUpper ['.','a'] = ['.','A']
    ∧ pyReplace ['.','A'] (strUpper ['.','a']) (mapUpperAlpha ['x']) = ['X']
    ∧ (['.','A'] : List Char) ≠ ['X'] := by
  decide

/-- C4 amended: the Title-form and all-caps passes run only when the
pattern is nonempty and its first character is alphabetic.  For such a
pattern, a fully upper-cased occurrence is replaced by the replacement with
its alphabetic characters upper-cased; for a pattern whose first character
is not alphabetic, only the exact case-sensitive replace is performed. -/
theorem C4_allcaps_only_alpha (c : Char) (p' u t : List Char)
    (d : Char) (q' s : List Char)
    (ha : isAlphaCh c = true)
    (h1 : occursIn (c :: p') (strUpper (c :: p') ++ u) = false)
    (h2 : occursIn (pyCapitalize (c :: p')) (strUpper (c :: p') ++ u) = false)
    (hd : isAlphaCh d = false) :
    replace_preserve_case (strUpper (c :: p') ++ u) (c :: p') t =
      mapUpperAlpha t ++ pyReplace u (strUpper (c :: p')) (mapUpperAlpha t)
    ∧ replace_preserve_case s (d :: q') t = pyReplace s (d :: q') t := by
  constructor
  · have hne : (c :: p') ≠ ([] : List Char) := by simp
    have hcapne : pyCapitalize (c :: p') ≠ [] := by simp [pyCapitalize]
    have hupne : strUpper (c :: p') ≠ [] := by simp [strUpper]
    simp only [replace_preserve_case, ha, if_true]
    rw [pyReplace_of_not_occurs (c :: p') t hne _ h1]
    rw [pyReplace_of_not_occurs (pyCapitalize (c :: p')) (pyCapitalize t)
      hcapne _ h2]
    exact pyReplace_append_self (strUpper (c :: p')) u (mapUpperAlpha t) hupne
  · simp [replace_preserve_case, hd]

/-- Witness for the amended C4: rule ("aa", "ā") on "AA" yields "Ā", and
rule (".a", "x") on ".A" performs only the exact replace. -/
theorem C4_allcaps_only_alpha_witness :
    replace_preserve_case (strUpper ('a' :: ['a']) ++ []) ('a' :: ['a']) ['ā'] =
      mapUpperAlpha ['ā'] ++
        pyReplace [] (strUpper ('a' :: ['a'])) (mapUpperAlpha ['ā'])
    ∧ replace_preserve_case ['.','A'] ('.' :: ['a']) ['x'] =
        pyReplace ['.','A'] ('.' :: ['a']) ['x'] :=
  C4_allcaps_only_alpha 'a' ['a'] [] ['ā'] '.' ['a'] ['.','A']
    (by decide) (by decide) (by decide) (by decide)

/-- C6: conversion is a total function of its inputs (it is defined by
structural recursion and cannot raise), and converting the empty string in
either source mode, either submode, under any rule list whose patterns are
nonempty, yields the empty string. -/
theorem C6_empty_input (mode : InputMode) (m : Bool)
    (rules : List (List Char × List Char)) (hne : ∀ r ∈ rules, r.1 ≠ []) :
    convert [] mode m rules = [] := by
  have hsorted : ∀ r ∈ sortRules rules, r.1 ≠ [] := fun r hr =>
    hne r ((perm_sortRules rules).mem_iff.mp hr)
  have hcustom : apply_custom_mappings [] rules = [] :=
    foldl_pyReplace_nil (sortRules rules) hsorted
  have hroman : apply_roman_mappings [] = [] := by decide
  cases mode with
  | Tamil =>
    cases rules with
    | nil => rfl
    | cons r rs => exact hcustom
  | Roman =>
    cases rules with
    | nil => exact hroman
    | cons r rs =>
      show apply_custom_mappings (apply_roman_mappings []) (r :: rs) = []
      rw [hroman]
      exact hcustom

/-- Witness for C6: empty Tamil-script input under one user rule. -/
theorem C6_empty_input_witness :
    convert [] InputMode.Tamil true [(['a'], ['b'])] = [] :=
  C6_empty_input InputMode.Tamil true [(['a'], ['b'])] (by decide)

/-- C9: the engine is not idempotent — a rule set whose replacement
contains its own pattern, here ("a", "ab"), makes a second run change the
output again. -/
theorem C9_not_idempotent :
    ∃ (rules : List (List Char × List Char)) (s : List Char),
      (∃ pr ∈ rules, occursIn pr.1 pr.2 = true)
      ∧ substitute (substitute s rules) rules ≠ substitute s rules :=
  ⟨[(['a'], ['a','b'])], ['a'], by decide⟩

/-- C10: a user rule with an empty source pattern is applied, not rejected:
the replacement is inserted before every character and once at the end, the
output length is len(s) + (len(s)+1)*len(t), and the output therefore always
differs from the input. -/
theorem C10_empty_pattern_rule (s t : List Char) (ht : t ≠ []) :
    apply_custom_mappings s [([], t)] =
      (s.map (fun c => t ++ [c])).flatten ++ t
    ∧ (apply_custom_mappings s [([], t)]).length =
        s.length + (s.length + 1) * t.length
    ∧ apply_custom_mappings s [([], t)] ≠ s := by
  have hbase : apply_custom_mappings s [([], t)] = pyInterleave t s := by
    simp [apply_custom_mappings, sortRules, insertRule, pyReplace]
  refine ⟨?_, ?_, ?_⟩
  · rw [hbase]
    exact pyInterleave_eq_flatten t s
  · rw [hbase]
    exact pyInterleave_length t s
  · rw [hbase]
    intro heq
    have hlen := congrArg List.length heq
    rw [pyInterleave_length t s] at hlen
    have ht' : t.length ≠ 0 := fun h0 => ht (List.length_eq_zero.mp h0)
    have hz : (s.length + 1) * t.length = 0 := by omega
    rcases Nat.mul_eq_zero.mp hz with h | h
    · omega
    · exact ht' h

/-- Witness for C10 with s = "a" and t = "x". -/
theorem C10_empty_pattern_rule_witness :
    apply_custom_mappings ['a'] [([], ['x'])] =
      (['a'].map (fun c => ['x'] ++ [c])).flatten ++ ['x'] :=
  (C10_empty_pattern_rule ['a'] ['x'] (by decide)).1

end TamilApp
